import Mathlib

/-
  Verification development for the FYS1120 repository.

  The repository holds two educational notebooks:
  * a 2D molecular-dynamics simulation of HCl molecules (spring bond force,
    pairwise inter-molecular Coulomb forces, Euler-Cromer integration), and
  * a 2D electrostatic lightning simulator (Jacobi relaxation Poisson solver
    `solvepoisson` plus a stochastic path-growth while-loop).

  The molecular-dynamics part is embedded over the real numbers (the code
  takes Euclidean norms, so square roots are unavoidable); the Poisson /
  lightning part is embedded over the rationals, which represent the float
  values exactly for the concrete inputs used here and keep every definition
  executable.  Random draws (`np.random.normal`, `np.random.uniform`) are
  modelled as explicit input streams.  A numpy float `nan` used as a marker
  ("value unspecified") is modelled as `none : Option ℚ`.
-/

/-! ## 2D vectors

The notebooks work with numpy arrays of shape `(..., 2)`; a single 2D vector
is modelled as a pair of reals.  numpy's elementwise `vector/scalar` division
is `sdiv`, `np.linalg.norm` on a 2-vector is `nrm`.  Scalar multiplication
uses the componentwise `SMul ℝ (ℝ × ℝ)` instance (the code writes
`vector*scalar`; real multiplication is commutative). -/

abbrev Vec := ℝ × ℝ

/-- Componentwise division of a 2D vector by a scalar, as numpy broadcasts
`vector / scalar`. -/
noncomputable def sdiv (v : Vec) (c : ℝ) : Vec := (v.1 / c, v.2 / c)

/-- Euclidean norm of a 2D vector (`np.linalg.norm`). -/
noncomputable def nrm (v : Vec) : ℝ := Real.sqrt (v.1 ^ 2 + v.2 ^ 2)

/-! ## Molecular-dynamics notebook: parameters and state -/

/-- The physical and numerical constants of the molecular-dynamics notebook,
gathered into one record: number of molecules `N` (`num_molecules`), Coulomb
constant `k_e`, bond strength `k_spring`, equilibrium distance `bond_length`,
timestep `dt`, the effective atom charges and the masses. -/
structure MDParams where
  N : ℕ
  k_e : ℝ
  k_spring : ℝ
  bond_length : ℝ
  dt : ℝ
  charge_H : ℝ
  charge_Cl : ℝ
  mass_H : ℝ
  mass_Cl : ℝ

/-- The notebook sets `timesteps = 5000`. -/
def timesteps : ℕ := 5000

/-- The notebook sets `grid_dims = np.array([4,4])`. -/
def grid_dims : ℕ × ℕ := (4, 4)

/-- The notebook sets `num_molecules = np.prod(grid_dims)`. -/
def num_molecules : ℕ := grid_dims.1 * grid_dims.2

/-- Positions and velocities of all atoms at one timestep.  The notebook keeps
whole `(timesteps, num_molecules, 2)` arrays; row `t` of those arrays is this
record for step `t`. -/
structure MDState (N : ℕ) where
  posH : Fin N → Vec
  posCl : Fin N → Vec
  velH : Fin N → Vec
  velCl : Fin N → Vec

/-- Spring (bond) acceleration of the hydrogen of molecule `i`:
`spring_unitvector*spring_force/mass_H` with
`spring_force = k_spring*(spring_distance - bond_length)` and
`spring_unitvector = (position_Cl - position_H)/spring_distance`. -/
noncomputable def springAccH (p : MDParams) (posH posCl : Fin p.N → Vec) (i : Fin p.N) : Vec :=
  sdiv ((p.k_spring * (nrm (posCl i - posH i) - p.bond_length)) •
    sdiv (posCl i - posH i) (nrm (posCl i - posH i))) p.mass_H

/-- Spring (bond) acceleration of the chlorine of molecule `i`:
`-spring_unitvector*spring_force/mass_Cl`. -/
noncomputable def springAccCl (p : MDParams) (posH posCl : Fin p.N → Vec) (i : Fin p.N) : Vec :=
  sdiv ((p.k_spring * (nrm (posCl i - posH i) - p.bond_length)) •
    -sdiv (posCl i - posH i) (nrm (posCl i - posH i))) p.mass_Cl

/-- One Coulomb force term `k_e*qa*qb*unitvector/distance**2` for a
separation vector `d` between two atoms (the code computes `unitvector` as
`d/|d|` and divides the scaled unit vector by `|d|**2`). -/
noncomputable def cTerm (p : MDParams) (qa qb : ℝ) (d : Vec) : Vec :=
  sdiv ((p.k_e * qa * qb) • sdiv d (nrm d)) (nrm d ^ 2)

/-- Coulomb acceleration of the hydrogen of molecule `i`:
`(sum of H-H forces + sum of H-Cl forces)/mass_H`, where both sums run over
the other molecules only (`coulomb_mask = np.arange(0,num_molecules)!=i`). -/
noncomputable def coulombAccH (p : MDParams) (posH posCl : Fin p.N → Vec) (i : Fin p.N) : Vec :=
  sdiv ((∑ j in Finset.univ.erase i, cTerm p p.charge_H p.charge_H (posH i - posH j)) +
        (∑ j in Finset.univ.erase i, cTerm p p.charge_H p.charge_Cl (posH i - posCl j)))
    p.mass_H

/-- Coulomb acceleration of the chlorine of molecule `i`:
`(sum of Cl-H forces + sum of Cl-Cl forces)/mass_Cl` over the other
molecules. -/
noncomputable def coulombAccCl (p : MDParams) (posH posCl : Fin p.N → Vec) (i : Fin p.N) : Vec :=
  sdiv ((∑ j in Finset.univ.erase i, cTerm p p.charge_Cl p.charge_H (posCl i - posH j)) +
        (∑ j in Finset.univ.erase i, cTerm p p.charge_Cl p.charge_Cl (posCl i - posCl j)))
    p.mass_Cl

/-- Total acceleration of the hydrogen atoms at the current step:
`acceleration_H[t] = coulomb_acc_H[t] + spring_acc_H[t]`. -/
noncomputable def accH (p : MDParams) (s : MDState p.N) (i : Fin p.N) : Vec :=
  coulombAccH p s.posH s.posCl i + springAccH p s.posH s.posCl i

/-- Total acceleration of the chlorine atoms at the current step:
`acceleration_Cl[t] = coulomb_acc_Cl[t] + spring_acc_Cl[t]`. -/
noncomputable def accCl (p : MDParams) (s : MDState p.N) (i : Fin p.N) : Vec :=
  coulombAccCl p s.posH s.posCl i + springAccCl p s.posH s.posCl i

/-- One iteration of the integration loop (the Euler Chromer block):
`velocity[t+1] = velocity[t] + acceleration[t]*dt` first, then
`position[t+1] = position[t] + velocity[t+1]*dt` with the updated
velocity. -/
noncomputable def mdStep (p : MDParams) (s : MDState p.N) : MDState p.N where
  posH := fun i => s.posH i + p.dt • (s.velH i + p.dt • accH p s i)
  posCl := fun i => s.posCl i + p.dt • (s.velCl i + p.dt • accCl p s i)
  velH := fun i => s.velH i + p.dt • accH p s i
  velCl := fun i => s.velCl i + p.dt • accCl p s i

/-- State after `t` iterations of the integration loop, starting from the
initial state `s0` (row `t` of the notebook's arrays). -/
noncomputable def mdSim (p : MDParams) (s0 : MDState p.N) : ℕ → MDState p.N
  | 0 => s0
  | t + 1 => mdStep p (mdSim p s0 t)

/-- Claim C1: for every timestep `t` from `0` to `timesteps-2` and both atom
species, the update is Euler-Cromer: the velocity update
`velocity[t+1] = velocity[t] + acceleration[t]*dt` is computed first, with
`acceleration[t]` the sum of the Coulomb and spring accelerations at step
`t`, and the position update `position[t+1] = position[t] + velocity[t+1]*dt`
uses the already-updated velocity. -/
theorem euler_cromer_update (p : MDParams) (s0 : MDState p.N) (t : ℕ)
    (ht : t ≤ timesteps - 2) (i : Fin p.N) :
    (mdSim p s0 (t + 1)).velH i =
      (mdSim p s0 t).velH i +
        p.dt • (coulombAccH p (mdSim p s0 t).posH (mdSim p s0 t).posCl i +
                springAccH p (mdSim p s0 t).posH (mdSim p s0 t).posCl i) ∧
    (mdSim p s0 (t + 1)).velCl i =
      (mdSim p s0 t).velCl i +
        p.dt • (coulombAccCl p (mdSim p s0 t).posH (mdSim p s0 t).posCl i +
                springAccCl p (mdSim p s0 t).posH (mdSim p s0 t).posCl i) ∧
    (mdSim p s0 (t + 1)).posH i =
      (mdSim p s0 t).posH i + p.dt • (mdSim p s0 (t + 1)).velH i ∧
    (mdSim p s0 (t + 1)).posCl i =
      (mdSim p s0 t).posCl i + p.dt • (mdSim p s0 (t + 1)).velCl i := by
  refine ⟨rfl, rfl, ?_, ?_⟩ <;> simp [mdSim, mdStep, accH, accCl]

/-- Concrete parameters used to witness the molecular-dynamics theorems:
a single molecule with all physical constants zero. -/
def mdParamsW : MDParams :=
  { N := 1, k_e := 0, k_spring := 0, bond_length := 0, dt := 0,
    charge_H := 0, charge_Cl := 0, mass_H := 0, mass_Cl := 0 }

/-- Index of the single molecule in the witness parameters. -/
def iW : Fin mdParamsW.N := ⟨0, by decide⟩

/-- Concrete initial state used to witness the molecular-dynamics
theorems. -/
noncomputable def mdStateW : MDState mdParamsW.N :=
  { posH := fun _ => (0, 0), posCl := fun _ => (0, 0),
    velH := fun _ => (0, 0), velCl := fun _ => (0, 0) }

/-- Witness for claim C1 at `t = 0`. -/
theorem euler_cromer_update_witness :
    (mdSim mdParamsW mdStateW 1).velH iW =
      (mdSim mdParamsW mdStateW 0).velH iW +
        mdParamsW.dt •
          (coulombAccH mdParamsW (mdSim mdParamsW mdStateW 0).posH
              (mdSim mdParamsW mdStateW 0).posCl iW +
            springAccH mdParamsW (mdSim mdParamsW mdStateW 0).posH
              (mdSim mdParamsW mdStateW 0).posCl iW) ∧
    (mdSim mdParamsW mdStateW 1).velCl iW =
      (mdSim mdParamsW mdStateW 0).velCl iW +
        mdParamsW.dt •
          (coulombAccCl mdParamsW (mdSim mdParamsW mdStateW 0).posH
              (mdSim mdParamsW mdStateW 0).posCl iW +
            springAccCl mdParamsW (mdSim mdParamsW mdStateW 0).posH
              (mdSim mdParamsW mdStateW 0).posCl iW) ∧
    (mdSim mdParamsW mdStateW 1).posH iW =
      (mdSim mdParamsW mdStateW 0).posH iW +
        mdParamsW.dt • (mdSim mdParamsW mdStateW 1).velH iW ∧
    (mdSim mdParamsW mdStateW 1).posCl iW =
      (mdSim mdParamsW mdStateW 0).posCl iW +
        mdParamsW.dt • (mdSim mdParamsW mdStateW 1).velCl iW :=
  euler_cromer_update mdParamsW mdStateW 0 (by decide) iW

/-- Claim C4: the bond force has magnitude `k_spring*(|r_Cl - r_H| - bond_length)`
along the unit vector `u` from H to Cl, the H acceleration being `+u*F/mass_H`
and the Cl acceleration `-u*F/mass_Cl`, so the two spring accelerations obey
Newton's third law: `mass_H*spring_acc_H + mass_Cl*spring_acc_Cl = 0`. -/
theorem spring_bond_force (p : MDParams) (posH posCl : Fin p.N → Vec) (i : Fin p.N)
    (hH : p.mass_H ≠ 0) (hCl : p.mass_Cl ≠ 0) :
    springAccH p posH posCl i =
      ((p.k_spring * (nrm (posCl i - posH i) - p.bond_length)) / p.mass_H) •
        sdiv (posCl i - posH i) (nrm (posCl i - posH i)) ∧
    springAccCl p posH posCl i =
      -(((p.k_spring * (nrm (posCl i - posH i) - p.bond_length)) / p.mass_Cl) •
        sdiv (posCl i - posH i) (nrm (posCl i - posH i))) ∧
    p.mass_H • springAccH p posH posCl i + p.mass_Cl • springAccCl p posH posCl i = 0 := by
  have h1 : springAccH p posH posCl i =
      ((p.k_spring * (nrm (posCl i - posH i) - p.bond_length)) / p.mass_H) •
        sdiv (posCl i - posH i) (nrm (posCl i - posH i)) := by
    apply Prod.ext <;>
      simp only [springAccH, sdiv, Prod.smul_fst, Prod.smul_snd, smul_eq_mul] <;> ring
  have h2 : springAccCl p posH posCl i =
      -(((p.k_spring * (nrm (posCl i - posH i) - p.bond_length)) / p.mass_Cl) •
        sdiv (posCl i - posH i) (nrm (posCl i - posH i))) := by
    apply Prod.ext <;>
      simp only [springAccCl, sdiv, Prod.smul_fst, Prod.smul_snd, Prod.fst_neg, Prod.snd_neg,
        smul_eq_mul] <;> ring
  refine ⟨h1, h2, ?_⟩
  rw [h1, h2, smul_neg, smul_smul, smul_smul, mul_comm p.mass_H, mul_comm p.mass_Cl,
    div_mul_cancel₀ _ hH, div_mul_cancel₀ _ hCl]
  simp

/-- Concrete parameters used to witness the spring-force theorem: a single
molecule with nonzero masses. -/
def mdParamsW2 : MDParams :=
  { N := 1, k_e := 0, k_spring := 1, bond_length := 1, dt := 0,
    charge_H := 0, charge_Cl := 0, mass_H := 1, mass_Cl := 2 }

/-- Index of the single molecule in the second witness parameters. -/
def iW2 : Fin mdParamsW2.N := ⟨0, by decide⟩

/-- Concrete atom positions used to witness the spring-force theorem. -/
noncomputable def mdStateW2 : MDState mdParamsW2.N :=
  { posH := fun _ => (0, 0), posCl := fun _ => (1, 0),
    velH := fun _ => (0, 0), velCl := fun _ => (0, 0) }

/-- Witness for claim C4 with unit masses. -/
theorem spring_bond_force_witness :
    springAccH mdParamsW2 mdStateW2.posH mdStateW2.posCl iW2 =
      ((mdParamsW2.k_spring *
          (nrm (mdStateW2.posCl iW2 - mdStateW2.posH iW2) - mdParamsW2.bond_length)) /
            mdParamsW2.mass_H) •
        sdiv (mdStateW2.posCl iW2 - mdStateW2.posH iW2)
          (nrm (mdStateW2.posCl iW2 - mdStateW2.posH iW2)) ∧
    springAccCl mdParamsW2 mdStateW2.posH mdStateW2.posCl iW2 =
      -(((mdParamsW2.k_spring *
            (nrm (mdStateW2.posCl iW2 - mdStateW2.posH iW2) - mdParamsW2.bond_length)) /
              mdParamsW2.mass_Cl) •
        sdiv (mdStateW2.posCl iW2 - mdStateW2.posH iW2)
          (nrm (mdStateW2.posCl iW2 - mdStateW2.posH iW2))) ∧
    mdParamsW2.mass_H • springAccH mdParamsW2 mdStateW2.posH mdStateW2.posCl iW2 +
      mdParamsW2.mass_Cl • springAccCl mdParamsW2 mdStateW2.posH mdStateW2.posCl iW2 = 0 :=
  spring_bond_force mdParamsW2 mdStateW2.posH mdStateW2.posCl iW2
    (by norm_num [mdParamsW2]) (by norm_num [mdParamsW2])

/-- The Coulomb force term of the code equals the textbook form
`(k_e*qa*qb/d^2)` times the unit vector. -/
theorem cTerm_spec (p : MDParams) (qa qb : ℝ) (d : Vec) :
    cTerm p qa qb d = ((p.k_e * qa * qb) / nrm d ^ 2) • sdiv d (nrm d) := by
  apply Prod.ext <;>
    simp only [cTerm, sdiv, Prod.smul_fst, Prod.smul_snd, smul_eq_mul] <;> ring

/-- Claim C3: the Coulomb acceleration of the H (resp. Cl) atom of molecule
`i` is the sum, over the other molecules `j ≠ i`, of inverse-square terms
`k_e*q_a*q_b/d^2` directed along the unit vector between the two atoms, over
the pairs H-H and H-Cl (resp. Cl-H and Cl-Cl), divided by the atom's mass;
the index set `Finset.univ.erase i` contains exactly the molecules other
than `i`, so no Coulomb term is computed inside a molecule. -/
theorem coulomb_acc_pairs (p : MDParams) (posH posCl : Fin p.N → Vec) (i : Fin p.N) :
    coulombAccH p posH posCl i =
      sdiv (∑ j in Finset.univ.erase i,
        (((p.k_e * p.charge_H * p.charge_H) / nrm (posH i - posH j) ^ 2) •
            sdiv (posH i - posH j) (nrm (posH i - posH j)) +
         ((p.k_e * p.charge_H * p.charge_Cl) / nrm (posH i - posCl j) ^ 2) •
            sdiv (posH i - posCl j) (nrm (posH i - posCl j)))) p.mass_H ∧
    coulombAccCl p posH posCl i =
      sdiv (∑ j in Finset.univ.erase i,
        (((p.k_e * p.charge_Cl * p.charge_H) / nrm (posCl i - posH j) ^ 2) •
            sdiv (posCl i - posH j) (nrm (posCl i - posH j)) +
         ((p.k_e * p.charge_Cl * p.charge_Cl) / nrm (posCl i - posCl j) ^ 2) •
            sdiv (posCl i - posCl j) (nrm (posCl i - posCl j)))) p.mass_Cl ∧
    ∀ j : Fin p.N, j ∈ Finset.univ.erase i ↔ j ≠ i := by
  refine ⟨?_, ?_, fun j => by simp⟩ <;>
    simp only [coulombAccH, coulombAccCl, cTerm_spec, Finset.sum_add_distrib]

/-! ## make_liquid: initial placement of the molecules -/

/-- numpy `linspace(a, b, n)` with its default endpoint: entry `i` is
`a + i*(b-a)/(n-1)`; a singleton (or empty) linspace starts at `a`. -/
noncomputable def linspace (a b : ℝ) (n : ℕ) (i : ℕ) : ℝ :=
  if n ≤ 1 then a else a + (i : ℝ) * ((b - a) / ((n : ℝ) - 1))

/-- Centre of molecule `k` on the regular grid: `meshgrid(xx,yy)` followed by
`ravel` lays the centres out row-major, so molecule `k` sits at
`(xx[k % gx], yy[k / gx])` with `xx = linspace(-sx/2, sx/2, gx)` and
`yy = linspace(-sy/2, sy/2, gy)`. -/
noncomputable def gridCentre (gx gy : ℕ) (sx sy : ℝ) (k : ℕ) : Vec :=
  (linspace (-(sx / 2)) (sx / 2) gx (k % gx), linspace (-(sy / 2)) (sy / 2) gy (k / gx))

/-- The random bond vector of molecule `k`: the normal sample `raw k` is
normalised and scaled, `pos = pos/r*bond_length`. -/
noncomputable def mlPos (bond_length : ℝ) (raw : ℕ → Vec) (k : ℕ) : Vec :=
  bond_length • sdiv (raw k) (nrm (raw k))

/-- The function `make_liquid`: hydrogen at `molecule - pos/2`, chlorine at
`molecule + pos/2`.  The normal draws of the source are the input stream
`raw`; the simulation is 2D (`dims = 2`), so `dims` is fixed by the type. -/
noncomputable def make_liquid (bond_length : ℝ) (gx gy : ℕ) (sx sy : ℝ) (raw : ℕ → Vec) :
    (ℕ → Vec) × (ℕ → Vec) :=
  (fun k => gridCentre gx gy sx sy k - sdiv (mlPos bond_length raw k) 2,
   fun k => gridCentre gx gy sx sy k + sdiv (mlPos bond_length raw k) 2)

/-- Claim C9: for every molecule whose sampled direction vector is nonzero,
the hydrogen sits at `centre - pos/2`, the chlorine at `centre + pos/2`,
the two atoms are exactly `bond_length` apart, and their midpoint is the
corresponding point of the regular grid. -/
theorem make_liquid_geometry (L : ℝ) (gx gy : ℕ) (sx sy : ℝ) (raw : ℕ → Vec) (k : ℕ)
    (hraw : raw k ≠ 0) (hL : 0 ≤ L) :
    (make_liquid L gx gy sx sy raw).1 k = gridCentre gx gy sx sy k - sdiv (mlPos L raw k) 2 ∧
    (make_liquid L gx gy sx sy raw).2 k = gridCentre gx gy sx sy k + sdiv (mlPos L raw k) 2 ∧
    nrm ((make_liquid L gx gy sx sy raw).2 k - (make_liquid L gx gy sx sy raw).1 k) = L ∧
    sdiv ((make_liquid L gx gy sx sy raw).1 k + (make_liquid L gx gy sx sy raw).2 k) 2 =
      gridCentre gx gy sx sy k := by
  refine ⟨rfl, rfl, ?_, ?_⟩
  · have hdiff : (make_liquid L gx gy sx sy raw).2 k - (make_liquid L gx gy sx sy raw).1 k =
        mlPos L raw k := by
      apply Prod.ext <;>
        simp only [make_liquid, sdiv, Prod.fst_sub, Prod.snd_sub, Prod.fst_add, Prod.snd_add] <;>
        ring
    rw [hdiff]
    have hxy : ¬((raw k).1 = 0 ∧ (raw k).2 = 0) := by
      intro h
      exact hraw (Prod.ext h.1 h.2)
    have hs : 0 < (raw k).1 ^ 2 + (raw k).2 ^ 2 := by
      rcases not_and_or.mp hxy with h | h
      · nlinarith [pow_two_pos_of_ne_zero h, sq_nonneg (raw k).2]
      · nlinarith [pow_two_pos_of_ne_zero h, sq_nonneg (raw k).1]
    have hrpos : 0 < nrm (raw k) := Real.sqrt_pos.mpr hs
    have hr2 : nrm (raw k) ^ 2 = (raw k).1 ^ 2 + (raw k).2 ^ 2 := Real.sq_sqrt hs.le
    have h1 : mlPos L raw k =
        (L * ((raw k).1 / nrm (raw k)), L * ((raw k).2 / nrm (raw k))) := by
      apply Prod.ext <;> simp [mlPos, sdiv, Prod.smul_fst, Prod.smul_snd, smul_eq_mul]
    rw [h1]
    show Real.sqrt
        ((L * ((raw k).1 / nrm (raw k))) ^ 2 + (L * ((raw k).2 / nrm (raw k))) ^ 2) = L
    have key : (L * ((raw k).1 / nrm (raw k))) ^ 2 + (L * ((raw k).2 / nrm (raw k))) ^ 2 =
        L ^ 2 := by
      field_simp
      rw [hr2]
      ring
    rw [key, Real.sqrt_sq hL]
  · apply Prod.ext <;>
      simp only [make_liquid, sdiv, Prod.fst_sub, Prod.snd_sub, Prod.fst_add, Prod.snd_add] <;>
      ring

/-- Concrete normal draws used to witness `make_liquid_geometry`. -/
noncomputable def rawW : ℕ → Vec := fun _ => (3, 4)

/-- Witness for claim C9 with bond length 2 and direction sample (3,4). -/
theorem make_liquid_geometry_witness :
    (make_liquid 2 4 4 1 1 rawW).1 0 = gridCentre 4 4 1 1 0 - sdiv (mlPos 2 rawW 0) 2 ∧
    (make_liquid 2 4 4 1 1 rawW).2 0 = gridCentre 4 4 1 1 0 + sdiv (mlPos 2 rawW 0) 2 ∧
    nrm ((make_liquid 2 4 4 1 1 rawW).2 0 - (make_liquid 2 4 4 1 1 rawW).1 0) = 2 ∧
    sdiv ((make_liquid 2 4 4 1 1 rawW).1 0 + (make_liquid 2 4 4 1 1 rawW).2 0) 2 =
      gridCentre 4 4 1 1 0 :=
  make_liquid_geometry 2 4 4 1 1 rawW 0
    (by simp [rawW, Prod.ext_iff]) (by norm_num)

/-! ## Lightning notebook: the Poisson solver

`solvepoisson(b, nrep)` works on a 2D float array; `nan` entries of the
boundary array `b` mark the points whose potential is unknown.  Grids are
modelled as total functions on `ℕ × ℕ` (entries outside `[0,Lx) × [0,Ly)`
are never read by in-grid computations), `nan` as `none : Option ℚ`, and
float arithmetic as exact rational arithmetic. -/

abbrev QGrid := ℕ → ℕ → ℚ

abbrev BGrid := ℕ → ℕ → Option ℚ

/-- The neighbour counter `ncount` accumulated by the four guarded branches
(`ix>0`, `ix<Lx-1`, `iy>0`, `iy<Ly-1`); the code keeps it as a float. -/
def ncountQ (Lx Ly ix iy : ℕ) : ℚ :=
  (if 0 < ix then 1 else 0) + (if ix < Lx - 1 then 1 else 0) +
  (if 0 < iy then 1 else 0) + (if iy < Ly - 1 then 1 else 0)

/-- The number of in-grid neighbours of `(ix, iy)`, as a natural number. -/
def ncountN (Lx Ly ix iy : ℕ) : ℕ :=
  (if 0 < ix then 1 else 0) + (if ix < Lx - 1 then 1 else 0) +
  (if 0 < iy then 1 else 0) + (if iy < Ly - 1 then 1 else 0)

/-- The accumulated potential `pot`: the sum of the previous field `z` over
the in-grid neighbours of `(ix, iy)`. -/
def potSum (Lx Ly : ℕ) (z : QGrid) (ix iy : ℕ) : ℚ :=
  (if 0 < ix then z (ix - 1) iy else 0) + (if ix < Lx - 1 then z (ix + 1) iy else 0) +
  (if 0 < iy then z ix (iy - 1) else 0) + (if iy < Ly - 1 then z ix (iy + 1) else 0)

/-- The value written into `znew[ix,iy]` during one sweep: `pot/ncount` where
`b` is `nan`, the previous value `z[ix,iy]` where `b` is specified. -/
def cellUpdate (Lx Ly : ℕ) (b : BGrid) (z : QGrid) (ix iy : ℕ) : ℚ :=
  match b ix iy with
  | none => potSum Lx Ly z ix iy / ncountQ Lx Ly ix iy
  | some _ => z ix iy

/-- One relaxation sweep: the double loop writes `cellUpdate` into every
in-grid entry of the buffer `znew`, whose out-of-grid entries are left
alone.  Only the previous field `z` is ever read. -/
def sweepWrite (Lx Ly : ℕ) (b : BGrid) (z znew : QGrid) : QGrid :=
  fun ix iy => if ix < Lx ∧ iy < Ly then cellUpdate Lx Ly b z ix iy else znew ix iy

/-- The starting field: `z = np.copy(b)` with every `nan` replaced by `0`. -/
def zinit (b : BGrid) : QGrid := fun ix iy => (b ix iy).getD 0

/-- The pair `(z, znew)` after `n` sweeps, with the code's buffer swap:
each sweep writes into `znew` reading only `z`, then the two buffers are
exchanged. -/
def poissonIter (Lx Ly : ℕ) (b : BGrid) : ℕ → QGrid × QGrid
  | 0 => (zinit b, zinit b)
  | n + 1 =>
    let zz := poissonIter Lx Ly b n
    (sweepWrite Lx Ly b zz.1 zz.2, zz.1)

/-- The solver `solvepoisson(b, nrep)`: the field `z` returned after `nrep` sweeps. -/
def solvepoisson (Lx Ly : ℕ) (b : BGrid) (nrep : ℕ) : QGrid :=
  (poissonIter Lx Ly b nrep).1

/-- In-grid, the field after `n+1` sweeps is the Jacobi update of the field
after `n` sweeps: the write buffer is only read out-of-grid. -/
theorem solvepoisson_succ (Lx Ly : ℕ) (b : BGrid) (n ix iy : ℕ)
    (hx : ix < Lx) (hy : iy < Ly) :
    solvepoisson Lx Ly b (n + 1) ix iy =
      cellUpdate Lx Ly b (solvepoisson Lx Ly b n) ix iy := by
  simp [solvepoisson, poissonIter, sweepWrite, hx, hy]

/-- Points whose boundary value is specified keep it through every number of
sweeps. -/
theorem solvepoisson_specified (Lx Ly : ℕ) (b : BGrid) (nrep ix iy : ℕ) (v : ℚ)
    (hx : ix < Lx) (hy : iy < Ly) (hb : b ix iy = some v) :
    solvepoisson Lx Ly b nrep ix iy = v := by
  induction nrep with
  | zero => simp [solvepoisson, poissonIter, zinit, hb]
  | succ n ih =>
    rw [solvepoisson_succ Lx Ly b n ix iy hx hy]
    simp [cellUpdate, hb, ih]

/-- The float neighbour counter is the cast of the natural one. -/
theorem ncountQ_eq_cast (Lx Ly ix iy : ℕ) :
    ncountQ Lx Ly ix iy = (ncountN Lx Ly ix iy : ℚ) := by
  unfold ncountQ ncountN
  split_ifs <;> norm_num

/-- Claim C5: at every grid point where `b` is specified (not nan), the array
returned by `solvepoisson(b, nrep)` carries exactly the value of `b`; by
contraposition, only the points that are nan in `b` are ever modified by the
solver. -/
theorem solvepoisson_frame (Lx Ly : ℕ) (b : BGrid) (nrep ix iy : ℕ)
    (hx : ix < Lx) (hy : iy < Ly) (hb : b ix iy ≠ none) :
    solvepoisson Lx Ly b nrep ix iy = (b ix iy).getD 0 := by
  rcases hv : b ix iy with - | v
  · exact absurd hv hb
  · simp only [Option.getD_some]
    exact solvepoisson_specified Lx Ly b nrep ix iy v hx hy hv

/-- Boundary grid used to witness the frame property of the solver. -/
def bC5W : BGrid := fun _ _ => some 3

/-- Witness for claim C5 on a 2x2 grid whose boundary is specified
everywhere. -/
theorem solvepoisson_frame_witness :
    solvepoisson 2 2 bC5W 1 0 0 = (bC5W 0 0).getD 0 :=
  solvepoisson_frame 2 2 bC5W 1 0 0 (by decide) (by decide) (by decide)

/-- Claim C10: on every grid with at least two rows or at least two columns,
every in-grid point (in particular every nan point of `b`, where the division
`pot/ncount` is reached) has at least one in-grid neighbour, so `ncount` is
nonzero there and the division is not a division by zero; on the 1x1 grid
the single point has neighbour count zero. -/
theorem ncount_never_zero (Lx Ly : ℕ) (b : BGrid) (ix iy : ℕ)
    (hdim : 2 ≤ Lx ∨ 2 ≤ Ly) (hx : ix < Lx) (hy : iy < Ly) (hnan : b ix iy = none) :
    (1 ≤ ncountN Lx Ly ix iy ∧ ncountQ Lx Ly ix iy ≠ 0) ∧
    ncountN 1 1 0 0 = 0 ∧ ncountQ 1 1 0 0 = 0 := by
  have h1 : 1 ≤ ncountN Lx Ly ix iy := by
    unfold ncountN
    split_ifs <;> omega
  refine ⟨⟨h1, ?_⟩, by decide, by norm_num [ncountQ]⟩
  rw [ncountQ_eq_cast]
  exact_mod_cast Nat.one_le_iff_ne_zero.mp h1

/-- Boundary grid used to witness the neighbour-count theorem: all nan. -/
def bC10W : BGrid := fun _ _ => none

/-- Witness for claim C10 on a 2x2 grid. -/
theorem ncount_never_zero_witness :
    (1 ≤ ncountN 2 2 0 0 ∧ ncountQ 2 2 0 0 ≠ 0) ∧
    ncountN 1 1 0 0 = 0 ∧ ncountQ 1 1 0 0 = 0 :=
  ncount_never_zero 2 2 bC10W 0 0 (Or.inl (by decide)) (by decide) (by decide) rfl

/-- Boundary grid of the counterexample to claim C2: a 1x2 grid whose point
`(0,0)` is nan and whose point `(0,1)` is specified as `5`. -/
def bC2cex : BGrid := fun _ iy => if iy = 0 then none else some 5

/-- Counterexample to claim C2 as stated: on the 1x2 grid `bC2cex` the nan
point `(0,0)` has exactly one in-grid neighbour, not 2, 3 or 4, and one sweep
gives it the value of that single neighbour. -/
theorem solvepoisson_counterexample :
    bC2cex 0 0 = none ∧
    ncountN 1 2 0 0 = 1 ∧
    ¬(2 ≤ ncountN 1 2 0 0) ∧
    solvepoisson 1 2 bC2cex 1 0 0 = 5 := by
  refine ⟨rfl, by decide, by decide, ?_⟩
  rw [solvepoisson_succ 1 2 bC2cex 0 0 0 (by decide) (by decide)]
  norm_num [cellUpdate, bC2cex, potSum, ncountQ, solvepoisson, poissonIter, zinit]

/-- Claim C2 as amended: `solvepoisson(b, nrep)` performs exactly `nrep`
Jacobi sweeps starting from `b` with nans replaced by `0`; in each sweep a
point that is nan in `b` receives the arithmetic mean of its 1, 2, 3 or 4
in-grid neighbours (at least 2 of them when both grid dimensions are at
least 2) taken from the previous sweep's field, never from values already
updated in the current sweep, while every specified point keeps its
value. -/
theorem solvepoisson_jacobi (Lx Ly : ℕ) (b : BGrid) (n ix iy : ℕ)
    (hx : ix < Lx) (hy : iy < Ly) :
    solvepoisson Lx Ly b 0 ix iy = (b ix iy).getD 0 ∧
    solvepoisson Lx Ly b (n + 1) ix iy =
      (if b ix iy = none
       then potSum Lx Ly (solvepoisson Lx Ly b n) ix iy / ncountQ Lx Ly ix iy
       else (b ix iy).getD 0) ∧
    ncountQ Lx Ly ix iy = (ncountN Lx Ly ix iy : ℚ) ∧
    ncountN Lx Ly ix iy ≤ 4 ∧
    (2 ≤ Lx ∨ 2 ≤ Ly → 1 ≤ ncountN Lx Ly ix iy) ∧
    (2 ≤ Lx → 2 ≤ Ly → 2 ≤ ncountN Lx Ly ix iy) := by
  refine ⟨rfl, ?_, ncountQ_eq_cast Lx Ly ix iy, ?_, ?_, ?_⟩
  · rw [solvepoisson_succ Lx Ly b n ix iy hx hy]
    rcases hv : b ix iy with - | v
    · simp [cellUpdate, hv]
    · simp [cellUpdate, hv, solvepoisson_specified Lx Ly b n ix iy v hx hy hv]
  · unfold ncountN
    split_ifs <;> omega
  · intro hdim
    unfold ncountN
    split_ifs <;> omega
  · intro h2x h2y
    unfold ncountN
    split_ifs <;> omega

/-- Boundary grid used to witness the Jacobi characterisation: a 2x2 grid
whose corner `(0,0)` is nan and whose other points are specified as `7`. -/
def bC2W : BGrid := fun ix iy => if ix = 0 ∧ iy = 0 then none else some 7

/-- Witness for the amended claim C2 at the nan corner of a 2x2 grid. -/
theorem solvepoisson_jacobi_witness :
    solvepoisson 2 2 bC2W 0 0 0 = (bC2W 0 0).getD 0 ∧
    solvepoisson 2 2 bC2W 1 0 0 =
      (if bC2W 0 0 = none
       then potSum 2 2 (solvepoisson 2 2 bC2W 0) 0 0 / ncountQ 2 2 0 0
       else (bC2W 0 0).getD 0) ∧
    ncountQ 2 2 0 0 = (ncountN 2 2 0 0 : ℚ) ∧
    ncountN 2 2 0 0 ≤ 4 ∧
    1 ≤ ncountN 2 2 0 0 ∧
    2 ≤ ncountN 2 2 0 0 := by
  have h := solvepoisson_jacobi 2 2 bC2W 0 0 0 (by decide) (by decide)
  exact ⟨h.1, h.2.1, h.2.2.1, h.2.2.2.1, h.2.2.2.2.1 (Or.inl (by decide)),
    h.2.2.2.2.2 (by decide) (by decide)⟩

/-! ## Lightning notebook: the stochastic path-growth loop

The while-loop repeatedly solves the Poisson problem, forms the selection
weights `sprob = s**eta * uniform(0,1) * isnan(zeroneighbor)`, picks the
grid point with the largest weight (`np.argmax` scans the row-major
flattening and returns the first maximum), grounds that point, marks its
in-grid neighbours as candidates, records the step count in the path array
`c`, and stops once the path has reached the top row `iy = 0`
(`while (ymin>0)`).  The uniform draws are an input stream of grids. -/

/-- The notebook sets `eta = 1.0` (the exponent of the potential in the
selection weight); an exact natural exponent represents the float power for
the nonnegative fields produced here. -/
def eta : ℕ := 1

/-- The grid indices in the row-major (C) order in which `np.argmax` scans
the flattened array. -/
def indices (Lx Ly : ℕ) : List (ℕ × ℕ) :=
  (List.range Lx).flatMap fun ix => (List.range Ly).map fun iy => (ix, iy)

/-- The fold step of `np.argmax`: keep the current best, replace it only on
a strictly larger value, so the first maximum wins. -/
def pickMax (f : ℕ → ℕ → ℚ) (best q : ℕ × ℕ) : ℕ × ℕ :=
  if f best.1 best.2 < f q.1 q.2 then q else best

/-- The selection `np.unravel_index(np.argmax(f), (Lx, Ly))`: the first index of a maximal
entry in row-major order. -/
def argmax2d (Lx Ly : ℕ) (f : ℕ → ℕ → ℚ) : ℕ × ℕ :=
  (indices Lx Ly).foldl (pickMax f) (0, 0)

/-- The selection weight of one iteration:
`sprob = s**eta * np.random.uniform(0,1,(Lx,Ly)) * np.isnan(zeroneighbor)`
with `s = solvepoisson(b, nrep)`. -/
def sprob (Lx Ly nrep : ℕ) (b zn : BGrid) (rand : QGrid) : QGrid :=
  fun ix iy =>
    solvepoisson Lx Ly b nrep ix iy ^ eta * rand ix iy *
      (if zn ix iy = none then 1 else 0)

/-- Pointwise update of an optional grid. -/
def upd (g : BGrid) (p : ℕ × ℕ) (v : Option ℚ) : BGrid :=
  fun ix iy => if ix = p.1 ∧ iy = p.2 then v else g ix iy

/-- Pointwise update of a rational grid. -/
def updQ (g : QGrid) (p : ℕ × ℕ) (v : ℚ) : QGrid :=
  fun ix iy => if ix = p.1 ∧ iy = p.2 then v else g ix iy

/-- The four guarded neighbour updates of the source: each in-grid neighbour
of the chosen point is set to nan in `zeroneighbor`. -/
def markNeighbors (Lx Ly : ℕ) (zn : BGrid) (p : ℕ × ℕ) : BGrid :=
  let z1 := if 0 < p.1 then upd zn (p.1 - 1, p.2) none else zn
  let z2 := if p.1 < Lx - 1 then upd z1 (p.1 + 1, p.2) none else z1
  let z3 := if 0 < p.2 then upd z2 (p.1, p.2 - 1) none else z2
  if p.2 < Ly - 1 then upd z3 (p.1, p.2 + 1) none else z3

/-- The mutable state of the while-loop: boundary conditions `b`, candidate
markers `zeroneighbor` (`zn`), path array `c`, step counter `ns` and the
smallest `iy` reached so far (`ymin`). -/
structure LState where
  b : BGrid
  zn : BGrid
  c : QGrid
  ns : ℕ
  ymin : ℕ

/-- One iteration of the while-loop body. -/
def lstep (Lx Ly nrep : ℕ) (rand : QGrid) (st : LState) : LState :=
  let p := argmax2d Lx Ly (fun ix iy => sprob Lx Ly nrep st.b st.zn rand ix iy)
  { b := upd st.b p (some 0)
  , zn := markNeighbors Lx Ly st.zn p
  , c := updQ st.c p ((st.ns : ℚ) + 1)
  , ns := st.ns + 1
  , ymin := if p.2 < st.ymin then p.2 else st.ymin }

/-- The state set up before the loop: `b` is nan except for the top row
(`b[:,0] = 1`) and the ground row (`b[:,Ly-1] = 0`); `zeroneighbor` is `0`
except for the row next to the ground, which is nan; `c = 0`, `ns = 0`,
`ymin = Ly-1`. -/
def stInit (Lx Ly : ℕ) : LState :=
  { b := fun _ iy => if iy = Ly - 1 then some 0 else if iy = 0 then some 1 else none
  , zn := fun _ iy => if iy = Ly - 2 then none else some 0
  , c := fun _ _ => 0
  , ns := 0
  , ymin := Ly - 1 }

/-- Fuelled interpreter of `while (ymin>0)`: returns the number of
iterations the loop performs, or `none` when the fuel runs out.  The
uniform draws of iteration `n` are `rand n`. -/
def lightningRun (Lx Ly nrep : ℕ) : ℕ → (ℕ → QGrid) → LState → Option ℕ
  | 0, _, st => if st.ymin = 0 then some 0 else none
  | fuel + 1, rand, st =>
    if st.ymin = 0 then some 0
    else Option.map Nat.succ
      (lightningRun Lx Ly nrep fuel (fun n => rand (n + 1)) (lstep Lx Ly nrep (rand 0) st))

/-- Folding `pickMax` never decreases the value of the running best. -/
theorem foldl_pickMax_le (f : ℕ → ℕ → ℚ) (l : List (ℕ × ℕ)) (b : ℕ × ℕ) :
    f b.1 b.2 ≤ f (l.foldl (pickMax f) b).1 (l.foldl (pickMax f) b).2 := by
  induction l generalizing b with
  | nil => exact le_refl _
  | cons q l ih =>
    simp only [List.foldl_cons]
    refine le_trans ?_ (ih (pickMax f b q))
    unfold pickMax
    split_ifs with h
    · exact le_of_lt h
    · exact le_refl _

/-- The result of folding `pickMax` dominates every scanned entry. -/
theorem foldl_pickMax_mem_le (f : ℕ → ℕ → ℚ) (l : List (ℕ × ℕ)) (b r : ℕ × ℕ)
    (hr : r ∈ l) :
    f r.1 r.2 ≤ f (l.foldl (pickMax f) b).1 (l.foldl (pickMax f) b).2 := by
  induction l generalizing b with
  | nil => cases hr
  | cons q l ih =>
    simp only [List.foldl_cons]
    rcases List.mem_cons.mp hr with h | h
    · subst h
      refine le_trans ?_ (foldl_pickMax_le f l (pickMax f b r))
      unfold pickMax
      split_ifs with h
      · exact le_refl _
      · exact le_of_not_lt h
    · exact ih (pickMax f b q) h

/-- The result of folding `pickMax` is the start value or a scanned entry. -/
theorem foldl_pickMax_mem (f : ℕ → ℕ → ℚ) (l : List (ℕ × ℕ)) (b : ℕ × ℕ) :
    l.foldl (pickMax f) b = b ∨ l.foldl (pickMax f) b ∈ l := by
  induction l generalizing b with
  | nil => exact Or.inl rfl
  | cons q l ih =>
    simp only [List.foldl_cons]
    rcases ih (pickMax f b q) with h | h
    · rw [h]
      unfold pickMax
      split_ifs
      · exact Or.inr (List.mem_cons_self _ _)
      · exact Or.inl rfl
    · exact Or.inr (List.mem_cons_of_mem _ h)

/-- Membership in the row-major index list is being in the grid. -/
theorem mem_indices (Lx Ly : ℕ) (p : ℕ × ℕ) :
    p ∈ indices Lx Ly ↔ p.1 < Lx ∧ p.2 < Ly := by
  rcases p with ⟨a, b⟩
  simp only [indices, List.mem_flatMap, List.mem_map, List.mem_range, Prod.mk.injEq]
  constructor
  · rintro ⟨ix, hix, iy, hiy, h1, h2⟩
    exact ⟨h1 ▸ hix, h2 ▸ hiy⟩
  · rintro ⟨h1, h2⟩
    exact ⟨a, h1, b, h2, rfl, rfl⟩

/-- The scan `np.argmax` returns the unique strict maximiser when there is one. -/
theorem argmax2d_unique (Lx Ly : ℕ) (f : ℕ → ℕ → ℚ) (q : ℕ × ℕ)
    (hq1 : q.1 < Lx) (hq2 : q.2 < Ly)
    (hmax : ∀ r : ℕ × ℕ, r.1 < Lx → r.2 < Ly → r ≠ q → f r.1 r.2 < f q.1 q.2) :
    argmax2d Lx Ly f = q := by
  have h00 : ((0, 0) : ℕ × ℕ) ∈ indices Lx Ly :=
    (mem_indices _ _ _).mpr ⟨lt_of_le_of_lt (Nat.zero_le _) hq1,
      lt_of_le_of_lt (Nat.zero_le _) hq2⟩
  have hmem : argmax2d Lx Ly f ∈ indices Lx Ly := by
    rcases foldl_pickMax_mem f (indices Lx Ly) (0, 0) with h | h
    · unfold argmax2d
      rw [h]
      exact h00
    · exact h
  have hin := (mem_indices Lx Ly _).mp hmem
  by_contra hne
  have hlt := hmax _ hin.1 hin.2 hne
  have hle : f q.1 q.2 ≤ f (argmax2d Lx Ly f).1 (argmax2d Lx Ly f).2 :=
    foldl_pickMax_mem_le f (indices Lx Ly) (0, 0) q ((mem_indices _ _ _).mpr ⟨hq1, hq2⟩)
  exact absurd (lt_of_lt_of_le hlt hle) (lt_irrefl _)

/-- A run with no remaining distance to the top row reports zero further
iterations, whatever the fuel. -/
theorem lightningRun_done (Lx Ly nrep fuel : ℕ) (rand : ℕ → QGrid) (st : LState)
    (h : st.ymin = 0) : lightningRun Lx Ly nrep fuel rand st = some 0 := by
  cases fuel <;> simp [lightningRun, h]

/-- Applying a grid-valued `if` pointwise. -/
theorem guard_apply (c : Prop) [Decidable c] (f g : BGrid) (ix iy : ℕ) :
    (if c then f else g) ix iy = if c then f ix iy else g ix iy := by
  split_ifs <;> rfl

set_option maxHeartbeats 1000000 in
/-- Claim C6: when the selection weight `sprob = s**eta * uniform * isnan(zn)`
has a unique maximiser `q` on the grid, an iteration of the growth loop
selects exactly `q`; it grounds `q` in the boundary array (`b[q] = 0`),
marks the at most four in-grid neighbours of `q` as candidates (touching no
other entry of `zeroneighbor`), records the incremented iteration count in
the path array `c`, lowers `ymin` to `min ymin q.2`, and the while-loop
`while (ymin>0)` terminates right after this iteration exactly when `q` lies
in the top row `iy = 0`. -/
theorem lightning_growth_step (Lx Ly nrep : ℕ) (rand : QGrid) (st : LState) (q : ℕ × ℕ)
    (hq1 : q.1 < Lx) (hq2 : q.2 < Ly)
    (hmax : ∀ r : ℕ × ℕ, r.1 < Lx → r.2 < Ly → r ≠ q →
      sprob Lx Ly nrep st.b st.zn rand r.1 r.2 < sprob Lx Ly nrep st.b st.zn rand q.1 q.2)
    (hymin : 0 < st.ymin) :
    argmax2d Lx Ly (fun ix iy => sprob Lx Ly nrep st.b st.zn rand ix iy) = q ∧
    (lstep Lx Ly nrep rand st).b q.1 q.2 = some 0 ∧
    (0 < q.1 → (lstep Lx Ly nrep rand st).zn (q.1 - 1) q.2 = none) ∧
    (q.1 < Lx - 1 → (lstep Lx Ly nrep rand st).zn (q.1 + 1) q.2 = none) ∧
    (0 < q.2 → (lstep Lx Ly nrep rand st).zn q.1 (q.2 - 1) = none) ∧
    (q.2 < Ly - 1 → (lstep Lx Ly nrep rand st).zn q.1 (q.2 + 1) = none) ∧
    (∀ r : ℕ × ℕ, r ≠ (q.1 - 1, q.2) → r ≠ (q.1 + 1, q.2) → r ≠ (q.1, q.2 - 1) →
      r ≠ (q.1, q.2 + 1) → (lstep Lx Ly nrep rand st).zn r.1 r.2 = st.zn r.1 r.2) ∧
    (lstep Lx Ly nrep rand st).c q.1 q.2 = (st.ns : ℚ) + 1 ∧
    (lstep Lx Ly nrep rand st).ns = st.ns + 1 ∧
    (lstep Lx Ly nrep rand st).ymin = min st.ymin q.2 ∧
    ((lstep Lx Ly nrep rand st).ymin = 0 ↔ q.2 = 0) ∧
    (∀ rseq : ℕ → QGrid, rseq 0 = rand → ∀ fuel : ℕ, q.2 = 0 →
      lightningRun Lx Ly nrep (fuel + 1) rseq st = some 1) := by
  have harg : argmax2d Lx Ly (fun ix iy => sprob Lx Ly nrep st.b st.zn rand ix iy) = q :=
    argmax2d_unique Lx Ly _ q hq1 hq2 hmax
  have hymin2 : (lstep Lx Ly nrep rand st).ymin = min st.ymin q.2 := by
    simp only [lstep, harg]
    split_ifs <;> omega
  refine ⟨harg, ?_, ?_, ?_, ?_, ?_, ?_, ?_, ?_, hymin2, ?_, ?_⟩
  · simp [lstep, harg, upd]
  · intro h
    simp only [lstep, harg, markNeighbors, guard_apply, upd, eq_self_iff_true, and_true,
      true_and, if_true, if_false]
    clear hmax harg hymin2 hymin hq1 hq2
    split_ifs <;> first | rfl | omega
  · intro h
    simp only [lstep, harg, markNeighbors, guard_apply, upd, eq_self_iff_true, and_true,
      true_and, if_true, if_false]
    clear hmax harg hymin2 hymin hq1 hq2
    split_ifs <;> first | rfl | omega
  · intro h
    simp only [lstep, harg, markNeighbors, guard_apply, upd, eq_self_iff_true, and_true,
      true_and, if_true, if_false]
    clear hmax harg hymin2 hymin hq1 hq2
    split_ifs <;> first | rfl | omega
  · intro h
    simp only [lstep, harg, markNeighbors, guard_apply, upd, eq_self_iff_true, and_true,
      true_and, if_true, if_false]
    clear hmax harg hymin2 hymin hq1 hq2
    split_ifs <;> first | rfl | omega
  · intro r hr1 hr2 hr3 hr4
    have h1 : ¬(r.1 = q.1 - 1 ∧ r.2 = q.2) := fun h => hr1 (Prod.ext h.1 h.2)
    have h2 : ¬(r.1 = q.1 + 1 ∧ r.2 = q.2) := fun h => hr2 (Prod.ext h.1 h.2)
    have h3 : ¬(r.1 = q.1 ∧ r.2 = q.2 - 1) := fun h => hr3 (Prod.ext h.1 h.2)
    have h4 : ¬(r.1 = q.1 ∧ r.2 = q.2 + 1) := fun h => hr4 (Prod.ext h.1 h.2)
    simp only [lstep, harg, markNeighbors, guard_apply, upd, eq_self_iff_true, and_true,
      true_and, if_true, if_false]
    clear hmax harg hymin2 hymin hq1 hq2
    split_ifs <;> first | rfl | omega
  · simp [lstep, harg, updQ]
  · simp [lstep]
  · rw [hymin2]
    omega
  · intro rseq hr fuel hq0
    have hz : (lstep Lx Ly nrep rand st).ymin = 0 := by
      rw [hymin2]
      omega
    rw [lightningRun, if_neg hymin.ne', hr,
      lightningRun_done Lx Ly nrep fuel (fun n => rseq (n + 1)) _ hz]
    rfl

/-- Loop state used to witness the growth-step theorem: a 1x2 grid, boundary
specified as `1` everywhere, every point a candidate, one row above the
stopping line. -/
def stC6W : LState :=
  { b := fun _ _ => some 1, zn := fun _ _ => none, c := fun _ _ => 0, ns := 0, ymin := 1 }

/-- Uniform draws used to witness the growth-step theorem: weight `1` on the
top row, `0` below it. -/
def randC6W : QGrid := fun _ iy => if iy = 0 then 1 else 0

/-- Witness for claim C6: on the 1x2 grid the point `(0,0)` uniquely
maximises the selection weight; the step grounds it, marks its one in-grid
neighbour, records the count, and the loop stops after this iteration. -/
theorem lightning_growth_step_witness :
    argmax2d 1 2 (fun ix iy => sprob 1 2 0 stC6W.b stC6W.zn randC6W ix iy) = (0, 0) ∧
    (lstep 1 2 0 randC6W stC6W).b 0 0 = some 0 ∧
    (lstep 1 2 0 randC6W stC6W).zn 0 1 = none ∧
    (lstep 1 2 0 randC6W stC6W).zn 5 5 = stC6W.zn 5 5 ∧
    (lstep 1 2 0 randC6W stC6W).c 0 0 = (stC6W.ns : ℚ) + 1 ∧
    (lstep 1 2 0 randC6W stC6W).ns = stC6W.ns + 1 ∧
    (lstep 1 2 0 randC6W stC6W).ymin = min stC6W.ymin 0 ∧
    ((lstep 1 2 0 randC6W stC6W).ymin = 0 ↔ (0 : ℕ) = 0) ∧
    lightningRun 1 2 0 1 (fun _ => randC6W) stC6W = some 1 := by
  have hmax : ∀ r : ℕ × ℕ, r.1 < 1 → r.2 < 2 → r ≠ ((0, 0) : ℕ × ℕ) →
      sprob 1 2 0 stC6W.b stC6W.zn randC6W r.1 r.2 <
        sprob 1 2 0 stC6W.b stC6W.zn randC6W 0 0 := by
    rintro ⟨a, b⟩ h1 h2 hne
    have ha : a = 0 := by omega
    have hb : b = 1 := by
      have hb0 : b ≠ 0 := by
        intro hb0
        exact hne (by rw [ha, hb0])
      omega
    subst ha
    subst hb
    norm_num [sprob, eta, solvepoisson, poissonIter, zinit, stC6W, randC6W]
  obtain ⟨c1, c2, -, -, -, c6, c7, c8, c9, c10, c11, c12⟩ :=
    lightning_growth_step 1 2 0 randC6W stC6W (0, 0) (by decide) (by decide) hmax (by decide)
  exact ⟨c1, c2, c6 (by decide),
    c7 (5, 5) (by decide) (by decide) (by decide) (by decide),
    c8, c9, c10, c11, c12 (fun _ => randC6W) rfl 0 rfl⟩

/-! ## Two concrete runs of the growth loop

The while-loop is driven by the uniform draws: on the same 2x3 grid, the
draw streams `randA` and `randB` below make it run for 2 and for 3
iterations respectively, so the number of iterations is not fixed in
advance. -/

/-- First-iteration draws shared by both runs: weight on the two candidate
points `(0,1)` and `(1,1)`, larger at `(0,1)`. -/
def r0W : QGrid := fun ix iy =>
  if ix = 0 ∧ iy = 1 then 1 else if ix = 1 ∧ iy = 1 then (1 : ℚ)/2 else 0

/-- Draws putting all weight on the top-row point `(0,0)`. -/
def r1AW : QGrid := fun ix iy => if ix = 0 ∧ iy = 0 then 1 else 0

/-- Draws putting all weight on the interior point `(1,1)`. -/
def r1BW : QGrid := fun ix iy => if ix = 1 ∧ iy = 1 then 1 else 0

/-- Draw stream A: head straight for the top row. -/
def randA : ℕ → QGrid := fun n => if n = 0 then r0W else r1AW

/-- Draw stream B: one sideways step before heading for the top row. -/
def randB : ℕ → QGrid := fun n => if n = 0 then r0W else if n = 1 then r1BW else r1AW

/-- A point the uniform draw weights with `0` has selection weight `0`. -/
theorem sprob_zero (Lx Ly nrep : ℕ) (b zn : BGrid) (rand : QGrid) (ix iy : ℕ)
    (h : rand ix iy = 0) : sprob Lx Ly nrep b zn rand ix iy = 0 := by
  simp [sprob, h]

/-- Unfolding one iteration of the fuelled while-loop. -/
theorem lightningRun_step (Lx Ly nrep fuel : ℕ) (rand : ℕ → QGrid) (st : LState)
    (h : st.ymin ≠ 0) :
    lightningRun Lx Ly nrep (fuel + 1) rand st =
      Option.map Nat.succ
        (lightningRun Lx Ly nrep fuel (fun n => rand (n + 1))
          (lstep Lx Ly nrep (rand 0) st)) := by
  rw [lightningRun, if_neg h]

/-- Selection weights of the first iteration: the candidate `(0,1)` wins. -/
theorem argmaxW1 :
    argmax2d 2 3
      (fun ix iy => sprob 2 3 1 (stInit 2 3).b (stInit 2 3).zn r0W ix iy) = (0, 1) := by
  have z00 : sprob 2 3 1 (stInit 2 3).b (stInit 2 3).zn r0W 0 0 = 0 :=
    sprob_zero 2 3 1 _ _ r0W 0 0 rfl
  have z02 : sprob 2 3 1 (stInit 2 3).b (stInit 2 3).zn r0W 0 2 = 0 :=
    sprob_zero 2 3 1 _ _ r0W 0 2 rfl
  have z10 : sprob 2 3 1 (stInit 2 3).b (stInit 2 3).zn r0W 1 0 = 0 :=
    sprob_zero 2 3 1 _ _ r0W 1 0 rfl
  have z12 : sprob 2 3 1 (stInit 2 3).b (stInit 2 3).zn r0W 1 2 = 0 :=
    sprob_zero 2 3 1 _ _ r0W 1 2 rfl
  have v01 : sprob 2 3 1 (stInit 2 3).b (stInit 2 3).zn r0W 0 1 = 1/3 := by
    simp only [sprob, eta, pow_one]
    rw [solvepoisson_succ 2 3 (stInit 2 3).b 0 0 1 (by decide) (by decide)]
    norm_num [cellUpdate, potSum, ncountQ, zinit, solvepoisson, poissonIter, stInit, r0W]
  have v11 : sprob 2 3 1 (stInit 2 3).b (stInit 2 3).zn r0W 1 1 = 1/6 := by
    simp only [sprob, eta, pow_one]
    rw [solvepoisson_succ 2 3 (stInit 2 3).b 0 1 1 (by decide) (by decide)]
    norm_num [cellUpdate, potSum, ncountQ, zinit, solvepoisson, poissonIter, stInit, r0W]
  rw [argmax2d, show indices 2 3 = [(0,0),(0,1),(0,2),(1,0),(1,1),(1,2)] from rfl]
  simp only [List.foldl_cons, List.foldl_nil, pickMax]
  norm_num [z00, z02, z10, z12, v01, v11]

/-- Selection weights of the second iteration under stream A: the top-row
point `(0,0)` wins. -/
theorem argmaxW2A :
    argmax2d 2 3
      (fun ix iy => sprob 2 3 1 (upd (stInit 2 3).b (0, 1) (some 0))
        (markNeighbors 2 3 (stInit 2 3).zn (0, 1)) r1AW ix iy) = (0, 0) := by
  have z01 : sprob 2 3 1 (upd (stInit 2 3).b (0, 1) (some 0))
      (markNeighbors 2 3 (stInit 2 3).zn (0, 1)) r1AW 0 1 = 0 :=
    sprob_zero 2 3 1 _ _ r1AW 0 1 rfl
  have z02 : sprob 2 3 1 (upd (stInit 2 3).b (0, 1) (some 0))
      (markNeighbors 2 3 (stInit 2 3).zn (0, 1)) r1AW 0 2 = 0 :=
    sprob_zero 2 3 1 _ _ r1AW 0 2 rfl
  have z10 : sprob 2 3 1 (upd (stInit 2 3).b (0, 1) (some 0))
      (markNeighbors 2 3 (stInit 2 3).zn (0, 1)) r1AW 1 0 = 0 :=
    sprob_zero 2 3 1 _ _ r1AW 1 0 rfl
  have z11 : sprob 2 3 1 (upd (stInit 2 3).b (0, 1) (some 0))
      (markNeighbors 2 3 (stInit 2 3).zn (0, 1)) r1AW 1 1 = 0 :=
    sprob_zero 2 3 1 _ _ r1AW 1 1 rfl
  have z12 : sprob 2 3 1 (upd (stInit 2 3).b (0, 1) (some 0))
      (markNeighbors 2 3 (stInit 2 3).zn (0, 1)) r1AW 1 2 = 0 :=
    sprob_zero 2 3 1 _ _ r1AW 1 2 rfl
  have v00 : sprob 2 3 1 (upd (stInit 2 3).b (0, 1) (some 0))
      (markNeighbors 2 3 (stInit 2 3).zn (0, 1)) r1AW 0 0 = 1 := by
    simp only [sprob, eta, pow_one]
    rw [solvepoisson_succ 2 3 (upd (stInit 2 3).b (0, 1) (some 0)) 0 0 0
      (by decide) (by decide)]
    norm_num [cellUpdate, potSum, ncountQ, zinit, solvepoisson, poissonIter, upd,
      markNeighbors, guard_apply, stInit, r1AW]
  rw [argmax2d, show indices 2 3 = [(0,0),(0,1),(0,2),(1,0),(1,1),(1,2)] from rfl]
  simp only [List.foldl_cons, List.foldl_nil, pickMax]
  norm_num [z01, z02, z10, z11, z12, v00]

/-- Selection weights of the second iteration under stream B: the interior
point `(1,1)` wins. -/
theorem argmaxW2B :
    argmax2d 2 3
      (fun ix iy => sprob 2 3 1 (upd (stInit 2 3).b (0, 1) (some 0))
        (markNeighbors 2 3 (stInit 2 3).zn (0, 1)) r1BW ix iy) = (1, 1) := by
  have z00 : sprob 2 3 1 (upd (stInit 2 3).b (0, 1) (some 0))
      (markNeighbors 2 3 (stInit 2 3).zn (0, 1)) r1BW 0 0 = 0 :=
    sprob_zero 2 3 1 _ _ r1BW 0 0 rfl
  have z01 : sprob 2 3 1 (upd (stInit 2 3).b (0, 1) (some 0))
      (markNeighbors 2 3 (stInit 2 3).zn (0, 1)) r1BW 0 1 = 0 :=
    sprob_zero 2 3 1 _ _ r1BW 0 1 rfl
  have z02 : sprob 2 3 1 (upd (stInit 2 3).b (0, 1) (some 0))
      (markNeighbors 2 3 (stInit 2 3).zn (0, 1)) r1BW 0 2 = 0 :=
    sprob_zero 2 3 1 _ _ r1BW 0 2 rfl
  have z10 : sprob 2 3 1 (upd (stInit 2 3).b (0, 1) (some 0))
      (markNeighbors 2 3 (stInit 2 3).zn (0, 1)) r1BW 1 0 = 0 :=
    sprob_zero 2 3 1 _ _ r1BW 1 0 rfl
  have z12 : sprob 2 3 1 (upd (stInit 2 3).b (0, 1) (some 0))
      (markNeighbors 2 3 (stInit 2 3).zn (0, 1)) r1BW 1 2 = 0 :=
    sprob_zero 2 3 1 _ _ r1BW 1 2 rfl
  have v11 : sprob 2 3 1 (upd (stInit 2 3).b (0, 1) (some 0))
      (markNeighbors 2 3 (stInit 2 3).zn (0, 1)) r1BW 1 1 = 1/3 := by
    simp only [sprob, eta, pow_one]
    rw [solvepoisson_succ 2 3 (upd (stInit 2 3).b (0, 1) (some 0)) 0 1 1
      (by decide) (by decide)]
    norm_num [cellUpdate, potSum, ncountQ, zinit, solvepoisson, poissonIter, upd,
      markNeighbors, guard_apply, stInit, r1BW]
  rw [argmax2d, show indices 2 3 = [(0,0),(0,1),(0,2),(1,0),(1,1),(1,2)] from rfl]
  simp only [List.foldl_cons, List.foldl_nil, pickMax]
  norm_num [z00, z01, z02, z10, z12, v11]

/-- Selection weights of the third iteration under stream B: the top-row
point `(0,0)` wins. -/
theorem argmaxW3B :
    argmax2d 2 3
      (fun ix iy => sprob 2 3 1 (upd (upd (stInit 2 3).b (0, 1) (some 0)) (1, 1) (some 0))
        (markNeighbors 2 3 (markNeighbors 2 3 (stInit 2 3).zn (0, 1)) (1, 1))
        r1AW ix iy) = (0, 0) := by
  have z01 : sprob 2 3 1 (upd (upd (stInit 2 3).b (0, 1) (some 0)) (1, 1) (some 0))
      (markNeighbors 2 3 (markNeighbors 2 3 (stInit 2 3).zn (0, 1)) (1, 1)) r1AW 0 1 = 0 :=
    sprob_zero 2 3 1 _ _ r1AW 0 1 rfl
  have z02 : sprob 2 3 1 (upd (upd (stInit 2 3).b (0, 1) (some 0)) (1, 1) (some 0))
      (markNeighbors 2 3 (markNeighbors 2 3 (stInit 2 3).zn (0, 1)) (1, 1)) r1AW 0 2 = 0 :=
    sprob_zero 2 3 1 _ _ r1AW 0 2 rfl
  have z10 : sprob 2 3 1 (upd (upd (stInit 2 3).b (0, 1) (some 0)) (1, 1) (some 0))
      (markNeighbors 2 3 (markNeighbors 2 3 (stInit 2 3).zn (0, 1)) (1, 1)) r1AW 1 0 = 0 :=
    sprob_zero 2 3 1 _ _ r1AW 1 0 rfl
  have z11 : sprob 2 3 1 (upd (upd (stInit 2 3).b (0, 1) (some 0)) (1, 1) (some 0))
      (markNeighbors 2 3 (markNeighbors 2 3 (stInit 2 3).zn (0, 1)) (1, 1)) r1AW 1 1 = 0 :=
    sprob_zero 2 3 1 _ _ r1AW 1 1 rfl
  have z12 : sprob 2 3 1 (upd (upd (stInit 2 3).b (0, 1) (some 0)) (1, 1) (some 0))
      (markNeighbors 2 3 (markNeighbors 2 3 (stInit 2 3).zn (0, 1)) (1, 1)) r1AW 1 2 = 0 :=
    sprob_zero 2 3 1 _ _ r1AW 1 2 rfl
  have v00 : sprob 2 3 1 (upd (upd (stInit 2 3).b (0, 1) (some 0)) (1, 1) (some 0))
      (markNeighbors 2 3 (markNeighbors 2 3 (stInit 2 3).zn (0, 1)) (1, 1)) r1AW 0 0 = 1 := by
    simp only [sprob, eta, pow_one]
    rw [solvepoisson_succ 2 3 (upd (upd (stInit 2 3).b (0, 1) (some 0)) (1, 1) (some 0)) 0 0 0
      (by decide) (by decide)]
    norm_num [cellUpdate, potSum, ncountQ, zinit, solvepoisson, poissonIter, upd,
      markNeighbors, guard_apply, stInit, r1AW]
  rw [argmax2d, show indices 2 3 = [(0,0),(0,1),(0,2),(1,0),(1,1),(1,2)] from rfl]
  simp only [List.foldl_cons, List.foldl_nil, pickMax]
  norm_num [z01, z02, z10, z11, z12, v00, -Prod.mk_one_one, -Prod.mk_zero_zero]

/-- After the shared first iteration the path has reached row 1. -/
theorem st1_ymin : (lstep 2 3 1 r0W (stInit 2 3)).ymin = 1 := by
  simp only [lstep, argmaxW1]
  norm_num [stInit]

/-- Under stream A the second iteration reaches the top row. -/
theorem st2A_ymin : (lstep 2 3 1 r1AW (lstep 2 3 1 r0W (stInit 2 3))).ymin = 0 := by
  simp only [lstep, argmaxW1, argmaxW2A]
  norm_num [stInit]

/-- Under stream B the second iteration stays in row 1. -/
theorem st2B_ymin : (lstep 2 3 1 r1BW (lstep 2 3 1 r0W (stInit 2 3))).ymin = 1 := by
  simp only [lstep, argmaxW1, argmaxW2B]
  norm_num [stInit]

/-- Under stream B the third iteration reaches the top row. -/
theorem st3B_ymin :
    (lstep 2 3 1 r1AW (lstep 2 3 1 r1BW (lstep 2 3 1 r0W (stInit 2 3)))).ymin = 0 := by
  simp only [lstep, argmaxW1, argmaxW2B, argmaxW3B]
  norm_num [stInit]

/-- Stream A drives the loop for exactly 2 iterations. -/
theorem runA_eval : lightningRun 2 3 1 5 randA (stInit 2 3) = some 2 := by
  rw [show (5 : ℕ) = 4 + 1 from rfl,
    lightningRun_step 2 3 1 4 randA (stInit 2 3) (by decide)]
  rw [show randA 0 = r0W from rfl]
  rw [show (4 : ℕ) = 3 + 1 from rfl,
    lightningRun_step 2 3 1 3 (fun n => randA (n + 1)) (lstep 2 3 1 r0W (stInit 2 3))
      (by rw [st1_ymin]; exact one_ne_zero)]
  rw [show randA (0 + 1) = r1AW from rfl]
  rw [lightningRun_done 2 3 1 3 _ _ st2A_ymin]
  rfl

/-- Stream B drives the loop for exactly 3 iterations. -/
theorem runB_eval : lightningRun 2 3 1 5 randB (stInit 2 3) = some 3 := by
  rw [show (5 : ℕ) = 4 + 1 from rfl,
    lightningRun_step 2 3 1 4 randB (stInit 2 3) (by decide)]
  rw [show randB 0 = r0W from rfl]
  rw [show (4 : ℕ) = 3 + 1 from rfl,
    lightningRun_step 2 3 1 3 (fun n => randB (n + 1)) (lstep 2 3 1 r0W (stInit 2 3))
      (by rw [st1_ymin]; exact one_ne_zero)]
  rw [show randB (0 + 1) = r1BW from rfl]
  rw [show (3 : ℕ) = 2 + 1 from rfl,
    lightningRun_step 2 3 1 2 (fun n => randB (n + 1 + 1))
      (lstep 2 3 1 r1BW (lstep 2 3 1 r0W (stInit 2 3)))
      (by rw [st2B_ymin]; exact one_ne_zero)]
  rw [show randB (0 + 1 + 1) = r1AW from rfl]
  rw [lightningRun_done 2 3 1 2 _ _ st3B_ymin]
  rfl

/-- Counterexample to claim C7: the lightning path-growth while-loop does
not execute a predetermined, input-independent number of iterations: on the
same 2x3 grid with the same boundary conditions, draw stream A stops the
loop after 2 iterations and draw stream B after 3. -/
theorem lightning_loop_counterexample :
    lightningRun 2 3 1 5 randA (stInit 2 3) = some 2 ∧
    lightningRun 2 3 1 5 randB (stInit 2 3) = some 3 ∧
    lightningRun 2 3 1 5 randA (stInit 2 3) ≠ lightningRun 2 3 1 5 randB (stInit 2 3) := by
  refine ⟨runA_eval, runB_eval, ?_⟩
  rw [runA_eval, runB_eval]
  simp

/-- The molecular-dynamics time loop as the source runs it: a fold over
`range(timesteps-1)` that advances the state and counts its iterations. -/
noncomputable def mdLoop (p : MDParams) (s0 : MDState p.N) : MDState p.N × ℕ :=
  (List.range (timesteps - 1)).foldl (fun acc _ => (mdStep p acc.1, acc.2 + 1)) (s0, 0)

/-- Folding the counting step over any list advances the state once per
element and adds the length to the counter. -/
theorem foldl_mdStep_count (p : MDParams) (l : List ℕ) (s : MDState p.N) (n : ℕ) :
    l.foldl (fun acc _ => (mdStep p acc.1, acc.2 + 1)) (s, n) =
      ((mdStep p)^[l.length] s, n + l.length) := by
  induction l generalizing s n with
  | nil => simp
  | cons a l ih =>
    rw [List.foldl_cons, ih (mdStep p s) (n + 1)]
    refine Prod.ext ?_ ?_
    · exact (Function.iterate_succ_apply (mdStep p) l.length s).symm
    · simp
      omega

/-- The indexed simulation is iteration of the step function. -/
theorem mdSim_iterate (p : MDParams) (s0 : MDState p.N) (t : ℕ) :
    mdSim p s0 t = (mdStep p)^[t] s0 := by
  induction t with
  | zero => rfl
  | succ t ih => simp [mdSim, ih, Function.iterate_succ_apply']

/-- Claim C7 as amended: the molecular-dynamics loop executes exactly
`timesteps - 1` iterations, fixed before the loop starts, and ends in the
state of row `timesteps - 1` of the arrays; the lightning path-growth
while-loop, by contrast, runs until the path reaches the top row, so its
iteration count depends on the uniform draws and is not fixed in advance. -/
theorem fixed_length_loops_amended (p : MDParams) (s0 : MDState p.N) :
    (mdLoop p s0).2 = timesteps - 1 ∧
    (mdLoop p s0).1 = mdSim p s0 (timesteps - 1) ∧
    lightningRun 2 3 1 5 randA (stInit 2 3) ≠ lightningRun 2 3 1 5 randB (stInit 2 3) := by
  refine ⟨?_, ?_, ?_⟩
  · rw [mdLoop, foldl_mdStep_count]
    simp
  · rw [mdLoop, foldl_mdStep_count, mdSim_iterate]
    simp
  · rw [runA_eval, runB_eval]
    simp

/-! ## Printed output of the molecular-dynamics loop -/

/-- The timesteps at which the loop body prints a progress line:
`t` in `range(timesteps-1)` with `t != 0 and t % int(timesteps/20) == 0`. -/
def progressPrints : List ℕ :=
  (List.range (timesteps - 1)).filter fun t =>
    decide (t ≠ 0 ∧ t % (timesteps / 20) = 0)

/-- One line of the notebook's printed output. -/
inductive OutLine where
  | progress (t total : ℕ)
  | summary (molecules steps : ℕ)
deriving DecidableEq

/-- Everything the cell prints: a `t of timesteps` line at each progress
step, then the single timing summary naming `num_molecules` and
`timesteps` (the elapsed seconds are wall-clock, not modelled). -/
def mdOutput : List OutLine :=
  progressPrints.map (fun t => OutLine.progress t timesteps) ++
    [OutLine.summary num_molecules timesteps]

set_option maxRecDepth 40000 in
/-- Claim C8: progress lines appear exactly at the timesteps `t` of the loop
range with `t ≠ 0` and `t` divisible by `int(timesteps/20) = 250`; for
`timesteps = 5000` these are the 19 steps `250, 500, ..., 4750`, and the
full output is those 19 progress lines followed by one summary line. -/
theorem progress_print_schedule :
    (∀ t : ℕ, t ∈ progressPrints ↔
      t < timesteps - 1 ∧ t ≠ 0 ∧ t % (timesteps / 20) = 0) ∧
    progressPrints = (List.range 19).map (fun k => 250 * (k + 1)) ∧
    progressPrints.length = 19 ∧
    mdOutput =
      ((List.range 19).map fun k => OutLine.progress (250 * (k + 1)) 5000) ++
        [OutLine.summary 16 5000] := by
  have hmem : ∀ t : ℕ, t ∈ progressPrints ↔
      t < timesteps - 1 ∧ t ≠ 0 ∧ t % (timesteps / 20) = 0 := by
    intro t
    simp [progressPrints, List.mem_filter, List.mem_range, and_comm]
  have hlist : progressPrints = (List.range 19).map (fun k => 250 * (k + 1)) := by
    decide
  refine ⟨hmem, hlist, ?_, ?_⟩
  · rw [hlist]
    simp
  · rw [mdOutput, hlist]
    rfl

/-- Witness for claim C8: the step 250 is printed, the step 100 is not. -/
theorem progress_print_schedule_witness :
    (250 ∈ progressPrints) ∧ ¬(100 ∈ progressPrints) := by
  have h := progress_print_schedule
  constructor
  · exact (h.1 250).mpr (by decide)
  · intro hc
    have := (h.1 100).mp hc
    norm_num [timesteps] at this
